import Mathlib

/-!
Verification of the devcoons/flexistack module-discovery and dispatch engine
(`src/flexistack/flexistack.py`) against its natural-language specification.

The embedding is shallow:

* Python values that flow through parsed argument maps, decorator literals and
  `init`/`run` results are modelled by `PyVal` (`None`, `bool`, `int`, `str`);
  Python `== True` / `== None` comparisons are modelled exactly (`1 == True`
  holds in Python and in the model).
* Python dictionaries (`parsed_args`, the `actions`/`plugins` registries and
  `FlexiModPack`) are modelled as insertion-ordered association lists.
* Exceptions of class `Exception` are modelled with `Except String`; an
  `.error` value is a raised exception.  (`BaseException`s such as
  `SystemExit`, console printing, and timing instrumentation are outside the
  model.)
* The `while True` loop of `Flexistack.run` is modelled with an explicit fuel
  parameter; a `none` result means the loop would still be running after
  `fuel` entries.  Termination of the source loop is a theorem (claim C3),
  not an assumption.
* Directory trees handed to `load_actions` are modelled by the inductive
  `Entry`; a source file is represented by the outcome of the static AST
  inspection (its first `flexi_action`-tagged class, if any), and a
  subdirectory by its optional parsed `.flexistack` manifest.  For
  `load_plugins` the AST walk over classes and decorators is modelled
  explicitly (`Decorator`, `DecArg`, `ClassDef`, `PyFile`), distinguishing
  constant arguments, non-constant arguments that still carry a `.value`
  attribute (which the source registers as AST-node keys), and arguments
  whose missing `.value` raises `AttributeError`.
-/

/-- A Python value as it occurs in parsed-argument maps, decorator literal
arguments and action results: `None`, a `bool`, an `int` or a `str`. -/
inductive PyVal where
  | pnone : PyVal
  | pbool : Bool → PyVal
  | pint : Int → PyVal
  | pstr : String → PyVal
deriving DecidableEq, Repr

/-- Python `x == True` (note `1 == True` is `True` in Python; strings and
`None` are never `== True`).  This is the comparison `Flexistack.run` applies
to `obj.init(...)` and to the values of the parsed-argument map. -/
def pyEqTrue : PyVal → Bool
  | .pbool b => b
  | .pint n => n == 1
  | _ => false

/-- Python truthiness (`bool(x)`): `None` and `False` are falsy, an `int` is
truthy iff nonzero, a `str` iff nonempty.  Used only to state claims; the
source never calls `bool(...)` on an init result. -/
def pyTruthy : PyVal → Bool
  | .pnone => false
  | .pbool b => b
  | .pint n => n != 0
  | .pstr s => s != ""

/-- Ordered-dictionary lookup: first pair whose key matches.  Models Python
`d[k]` / `d.get(k)` on a dict represented as its insertion-ordered item
list. -/
def lookupA {κ α : Type _} [DecidableEq κ] : List (κ × α) → κ → Option α
  | [], _ => none
  | (k, v) :: rest, key => if k = key then some v else lookupA rest key

/-- `mapO f l` is Python's `list(map(f, it))` in a context where `f` may
raise: it returns `none` as soon as `f` fails on some element.  Used for
`tuple(map(int, version.split('.')))`. -/
def mapO {α β : Type _} (f : α → Option β) : List α → Option (List β)
  | [] => some []
  | a :: l =>
    match f a with
    | none => none
    | some b =>
      match mapO f l with
      | none => none
      | some bs => some (b :: bs)

/-- `startsWithL pat s`: the character list `s` begins with `pat`. -/
def startsWithL : List Char → List Char → Bool
  | [], _ => true
  | _ :: _, [] => false
  | p :: ps, s :: ss => p = s && startsWithL ps ss

/-- Python `pat in s` on strings, over character lists: `pat` occurs as a
contiguous substring (the empty pattern always occurs). -/
def containsL (pat : List Char) : List Char → Bool
  | [] => startsWithL pat []
  | s :: ss => startsWithL pat (s :: ss) || containsL pat ss

/-- Split a character list at every occurrence of the character `c`
(Python `s.split(c)` for a one-character separator: splitting the empty
string yields `[""]`). -/
def splitOnChar (c : Char) : List Char → List (List Char)
  | [] => [[]]
  | a :: rest =>
    let r := splitOnChar c rest
    if a = c then [] :: r
    else
      match r with
      | [] => [[a]]
      | g :: gs => (a :: g) :: gs

/-- Python `version.split('.')`. -/
def pySplitDot (s : String) : List String :=
  (splitOnChar '.' s.data).map String.mk

/-- Core of Python `s.replace(pat, rep)` for a non-empty `pat` (the only
form the source uses: `itempath.replace(".py", "")`): replace every
non-overlapping occurrence left to right.  The `Nat` is the number of
already-matched characters still to be consumed after a match at the
previous position. -/
def replaceCore (pat rep : List Char) : Nat → List Char → List Char
  | 0, [] => []
  | 0, c :: rest =>
    if startsWithL pat (c :: rest) && !pat.isEmpty then
      rep ++ replaceCore pat rep (pat.length - 1) rest
    else c :: replaceCore pat rep 0 rest
  | _ + 1, [] => []
  | d + 1, _ :: rest => replaceCore pat rep d rest

/-- Python `s.replace(pat, rep)` for non-empty `pat`. -/
def pyReplace (s pat rep : String) : String :=
  String.mk (replaceCore pat.data rep.data 0 s.data)

/-- Python `s.endswith(pat)`. -/
def pyEndsWith (s pat : String) : Bool :=
  startsWithL pat.data.reverse s.data.reverse

/-- Strip leading and trailing whitespace from a character list (the
whitespace stripping `int(str)` performs). -/
def stripWs (l : List Char) : List Char :=
  ((l.dropWhile Char.isWhitespace).reverse.dropWhile Char.isWhitespace).reverse

/-- Decimal digit value of a character. -/
def digitVal (c : Char) : Nat := c.toNat - 48

/-- Tail of CPython's `digitpart`: after a first digit, digits optionally
separated by single underscores. -/
def digitTail (acc : Nat) : List Char → Option Nat
  | [] => some acc
  | '_' :: c :: rest =>
    if c.isDigit then digitTail (acc * 10 + digitVal c) rest else none
  | c :: rest =>
    if c.isDigit then digitTail (acc * 10 + digitVal c) rest else none

/-- CPython `digitpart`: `digit (["_"] digit)*`. -/
def digitPart : List Char → Option Nat
  | [] => none
  | c :: rest => if c.isDigit then digitTail (digitVal c) rest else none

/-- Python `int(s)` for base 10: optional surrounding whitespace, optional
sign, then a digit part (underscore group separators allowed).  `none` models
the `ValueError` raised on any other input. -/
def pyInt (s : String) : Option Int :=
  match stripWs s.data with
  | '+' :: rest => (digitPart rest).map Int.ofNat
  | '-' :: rest => (digitPart rest).map (fun n => -(n : Int))
  | l => (digitPart l).map Int.ofNat

/-- The sort key of `FlexiModPack.versions`:
`tuple(map(int, version.split('.')))`, `none` when `int` raises on some
component. -/
def parseVer (s : String) : Option (List Int) :=
  mapO pyInt (pySplitDot s)

/-- Python `<` on integer tuples (lexicographic; a proper prefix is
smaller). -/
def tupleLt : List Int → List Int → Bool
  | [], [] => false
  | [], _ :: _ => true
  | _ :: _, [] => false
  | a :: as_, b :: bs =>
    if a < b then true else if b < a then false else tupleLt as_ bs

/-- One step of the stable descending insertion modelling CPython's stable
`sorted(..., reverse=True)`: an element is placed after every earlier element
whose key is not smaller than its own. -/
def insertDesc (x : String × List Int) :
    List (String × List Int) → List (String × List Int)
  | [] => [x]
  | y :: ys => if tupleLt y.2 x.2 then x :: y :: ys else y :: insertDesc x ys

/-- Stable sort of `(key string, parsed tuple)` pairs in descending tuple
order; elements with equal tuples keep their original (insertion) order,
exactly as CPython's stable `sorted(..., reverse=True)` does. -/
def sortDesc (l : List (String × List Int)) : List (String × List Int) :=
  l.foldl (fun acc x => insertDesc x acc) []

/-- Pair a version key with its parsed integer tuple (the `key=` function of
`sorted`); `none` when `int` raises. -/
def verKeyPair (k : String) : Option (String × List Int) :=
  (parseVer k).map (fun t => (k, t))

/-- `FlexiModPack.versions` (flexistack.py lines 200-211): sort the pack's
keys by their integer tuples in descending order.  `sorted` first computes
the key of every element, so a single malformed component anywhere raises
`ValueError` (modelled as `.error`) before any ordering is produced. -/
def versions (keys : List String) : Except String (List String) :=
  match mapO verKeyPair keys with
  | none => .error "ValueError: invalid literal for int() with base 10"
  | some pairs => .ok ((sortDesc pairs).map Prod.fst)

/-- `FlexiModPack.__call__` (lines 191-196):
`self[self.versions()[0]](flexistack, as_module)` — resolve the latest
version and invoke it; any exception from `versions()`, the `[0]` indexing or
the module call propagates. -/
def flexiModPackCall {μ ρ : Type _} (pack : List (String × μ))
    (call : μ → Except String ρ) : Except String ρ :=
  match versions (pack.map Prod.fst) with
  | .error e => .error e
  | .ok [] => .error "IndexError: list index out of range"
  | .ok (v :: _) =>
    match lookupA pack v with
    | none => .error "KeyError"
    | some m => call m

/-- `FlexiModules.__call__` (lines 217-228): `return self(flexistack,
as_module)` — the body re-invokes the same callable with the same arguments
unconditionally.  `fuel` counts remaining stack frames; `none` means the
recursion is still running (in CPython it ends only with `RecursionError`). -/
def flexiModulesCall {α ρ : Type _} (fuel : Nat) (flexistack : α)
    (as_module : Bool) : Option ρ :=
  match fuel with
  | 0 => none
  | fuel + 1 => flexiModulesCall fuel flexistack as_module

/-- The behaviour of one resolved action instance, as `Flexistack.run`
observes it: what `obj.init(...)` does (return a value or raise) and what
`obj.run()` does.  The keyword arguments `run` passes to `init`
(`project_dir`, and `pargs` in the positional branch) are part of the
execution context and do not alter the dispatch control flow, so they are
abstracted away. -/
structure ActionObj where
  initRes : Except String PyVal
  runRes : Except String PyVal
deriving Repr

/-- Observable calls made on a resolved action instance during dispatch.
Used to state the two-phase (`init` then `run`) contract. -/
inductive Ev where
  | initCall : String → Ev
  | runCall : String → Ev
deriving DecidableEq, Repr

/-- The optional-flag branch of `Flexistack.run` (lines 677-698):
`for opt_action in parsed_args: if parsed_args[opt_action] == True: ...`.
The first key whose value compares `== True` resolves
`self.actions[opt_action](self)` (an `.error` from `acts` models a `KeyError`
or a lazy-load/instantiation exception), calls `init`, and calls `run` only
when `init`'s result compares `== True`.  If the loop finds no such key the
`try` block simply ends and the function returns Python `None` (`.ok .pnone`
with no calls). -/
def optLoop (acts : String → Except String ActionObj) :
    List (String × PyVal) → Except String PyVal × List Ev
  | [] => (.ok .pnone, [])
  | (k, v) :: rest =>
    if pyEqTrue v then
      match acts k with
      | .error e => (.error e, [])
      | .ok obj =>
        match obj.initRes with
        | .error e => (.error e, [.initCall k])
        | .ok iv =>
          if pyEqTrue iv then
            match obj.runRes with
            | .error e => (.error e, [.initCall k, .runCall k])
            | .ok r => (.ok r, [.initCall k, .runCall k])
          else (.ok (.pbool false), [.initCall k])
    else optLoop acts rest

/-- The positional branch of `Flexistack.run` (lines 699-733), one loop entry
per call.  `iterration` is the source's counter (incremented on entry;
`> 5` triggers the infinite-loop breaker and returns `False`), `cur` is
`cur_act_level`, `appender` accumulates the slash-joined path.  A non-string
`cur` raises `TypeError` on `cur_act_level + "_action"`.  The returned `Nat`
is the final value of `iterration`; `none` means the loop is still running
after `fuel` entries (the source has no fuel — claim C3 proves 6 entries
always suffice). -/
def posLoop (acts : String → Except String ActionObj)
    (pargs : List (String × PyVal)) :
    Nat → Nat → PyVal → String → Option (Except String PyVal × Nat × List Ev)
  | 0, _, _, _ => none
  | fuel + 1, iterration, cur, appender =>
    let it := iterration + 1
    if 5 < it then some (.ok (.pbool false), it, [])
    else
      match cur with
      | .pstr s =>
        match lookupA pargs (s ++ "_action") with
        | some .pnone => some (.ok (.pbool false), it, [])
        | some v => posLoop acts pargs fuel it v (appender ++ s ++ "/")
        | none =>
          match acts (appender ++ s) with
          | .error e => some (.error e, it, [])
          | .ok obj =>
            match obj.initRes with
            | .error e => some (.error e, it, [.initCall (appender ++ s)])
            | .ok iv =>
              if pyEqTrue iv then
                match obj.runRes with
                | .error e =>
                  some (.error e, it,
                    [.initCall (appender ++ s), .runCall (appender ++ s)])
                | .ok r =>
                  some (.ok r, it,
                    [.initCall (appender ++ s), .runCall (appender ++ s)])
              else some (.ok (.pbool false), it, [.initCall (appender ++ s)])
      | _ => some (.error "TypeError: can only concatenate str", it, [])

/-- With the iteration counter at `it ≤ 5` and `6 - it` fuel available, the
positional loop always delivers a result: the breaker bounds the number of
entries by six.  (Proved here, before `runBody`, so the embedding can use
fuel 6 without inventing an unreachable default branch.) -/
def posLoop_isSome (acts : String → Except String ActionObj)
    (pargs : List (String × PyVal)) :
    (fuel it : Nat) → (cur : PyVal) → (app : String) → it + fuel = 6 →
      it ≤ 5 → (posLoop acts pargs fuel it cur app).isSome = true
  | 0, it, _, _, hsum, hle => by omega
  | fuel + 1, it, cur, app, hsum, hle => by
    unfold posLoop
    by_cases h5 : 5 < it + 1
    · simp [h5]
    · simp only [h5, if_false]
      cases cur with
      | pstr s =>
        cases hl : lookupA pargs (s ++ "_action") with
        | none =>
          simp only [hl]
          cases hact : acts (app ++ s) with
          | error e => simp
          | ok obj =>
            simp only []
            cases hini : obj.initRes with
            | error e => simp [hini]
            | ok iv =>
              simp only [hini]
              by_cases hiv : pyEqTrue iv = true
              · cases hrun : obj.runRes with
                | error e => simp [hiv, hrun]
                | ok r => simp [hiv, hrun]
              · simp [hiv]
        | some v =>
          simp only [hl]
          cases v with
          | pnone => simp
          | pbool b =>
            exact posLoop_isSome acts pargs fuel (it + 1) (.pbool b)
              (app ++ s ++ "/") (by omega) (by omega)
          | pint n =>
            exact posLoop_isSome acts pargs fuel (it + 1) (.pint n)
              (app ++ s ++ "/") (by omega) (by omega)
          | pstr t =>
            exact posLoop_isSome acts pargs fuel (it + 1) (.pstr t)
              (app ++ s ++ "/") (by omega) (by omega)
      | pnone => simp
      | pbool b => simp
      | pint n => simp

/-- The `try` block of `Flexistack.run` (lines 676-733).  `parsed_args
['action']` missing is a `KeyError`; `None` selects the optional-flag branch,
anything else the positional branch (started with `iterration = 0`, the
parsed `action` value and an empty path accumulator).  Fuel 6 is exact: the
breaker admits at most six loop entries (`posLoop_isSome`). -/
def runBody (acts : String → Except String ActionObj)
    (pargs : List (String × PyVal)) : Except String PyVal × List Ev :=
  match lookupA pargs "action" with
  | none => (.error "KeyError", [])
  | some .pnone => optLoop acts pargs
  | some v =>
    let out := (posLoop acts pargs 6 0 v "").get
      (posLoop_isSome acts pargs 6 0 v "" rfl (by omega))
    (out.1, out.2.2)

/-- `Flexistack.run` (lines 658-736): run the `try` block; `except Exception`
prints the exception and returns `False`, so a raised exception becomes the
Python value `False` and a normal value is returned as-is.  The event trace
records the `init`/`run` calls made on the resolved action instance. -/
def flexistackRun (acts : String → Except String ActionObj)
    (pargs : List (String × PyVal)) : PyVal × List Ev :=
  match runBody acts pargs with
  | (.error _, t) => (.pbool false, t)
  | (.ok v, t) => (v, t)

/-- `FlexiModule` (lines 117-171), restricted to the fields discovery sets
and dispatch reads: `p` (module file path), `d` (description literal), `c`
(target class name).  The back-reference `f`, the basename `n` and the
random unique load-identifier `u`, as well as the lazy module cache `m`, are
runtime-only and not needed by any claim. -/
structure FlexiModule where
  p : String
  d : PyVal
  c : String
deriving DecidableEq, Repr

/-- A parsed `.flexistack` manifest: `{"z-index": <int>, "description":
<str>}`. -/
structure Manifest where
  zIndex : Int
  description : String
deriving DecidableEq, Repr

/-- The statically inspected content of an action source file: the first
class carrying a `flexi_action(as_optional, description)` decorator with two
literal arguments, if any.  `hasSetOptionalArgs` records whether that class
body defines a `set_optional_arguments` method. -/
structure ActionTag where
  asOptional : PyVal
  description : PyVal
  className : String
  hasSetOptionalArgs : Bool
deriving DecidableEq, Repr

/-- A directory tree as `load_actions` sees it: files carry their inspection
outcome, subdirectories carry their optional manifest and their own listing
(in `os.listdir` order).  A present-but-malformed `.flexistack` file makes
the source raise out of `load_actions` (fail-fast); only directories whose
manifest parsed, or that have none, are representable here. -/
inductive Entry where
  | file : String → Option ActionTag → Entry
  | dir : String → Option Manifest → List Entry → Entry
deriving Repr

/-- Declarative registrations made against the external grammar engine
(argparse): `parserAdded parentRel name` for `add_parser(name, ...)` on the
subparser group of the directory with relative path `parentRel`,
`subparsersAdded dest` for `add_subparsers(dest=...)`, and
`flagAdded parentRel command mode` for
`add_argument('-'+command[0], '--'+command, action=mode, ...)`. -/
inductive GrammarEv where
  | parserAdded : String → String → GrammarEv
  | subparsersAdded : String → GrammarEv
  | flagAdded : String → String → PyVal → GrammarEv
deriving DecidableEq, Repr

/-- The mutable state `load_actions` threads: the action registry
(`self.actions`, an insertion-ordered name → FlexiModule map) and the
accumulated grammar registrations. -/
structure LoadState where
  registry : List (String × FlexiModule)
  grammar : List GrammarEv
deriving DecidableEq, Repr

/-- Python `pat in s` for strings: substring containment. -/
def containsSub (s pat : String) : Bool := containsL pat.data s.data

/-- The leaf-file filter of `_load` (line 541): `".py" in itempath and not
".pyc" in itempath and not "__init__" in itempath`. -/
def isPyName (name : String) : Bool :=
  containsSub name ".py" && !containsSub name ".pyc" && !containsSub name "__init__"

/-- Processing of one directory entry that is a file, `_load` lines 527 and
541-599: skip `__pycache__`/`.flexistack` names and non-`.py` files; for a
file whose first `flexi_action` class has `as_optional == None` and a
`set_optional_arguments` method, register a positional leaf (new subcommand
parser plus registry entry under `rel ++ command`) only if the registry does
not already hold that action name; for `as_optional` non-`None`, register a
top-level optional flag the same way.  In every already-registered case the
state is returned unchanged (first registration wins).  (A file named
exactly `".py"` makes the source raise `IndexError` on `command[0]` right
after the registry insert — action discovery is fail-fast on such structural
errors, which are outside this model.) -/
def processFile (rel dirAbs : String) (st : LoadState) (name : String)
    (tag : Option ActionTag) : LoadState :=
  if name = "__pycache__" ∨ name = ".flexistack" then st
  else if isPyName name then
    match tag with
    | none => st
    | some t =>
      let command := pyReplace name ".py" ""
      let actionName := rel ++ command
      match t.asOptional with
      | .pnone =>
        if t.hasSetOptionalArgs then
          match lookupA st.registry actionName with
          | some _ => st
          | none =>
            { registry := st.registry ++
                [(actionName,
                  { p := dirAbs ++ name, d := t.description, c := t.className })]
              grammar := st.grammar ++ [GrammarEv.parserAdded rel command] }
        else st
      | mode =>
        match lookupA st.registry actionName with
        | some _ => st
        | none =>
          { registry := st.registry ++
              [(actionName,
                { p := dirAbs ++ name, d := t.description, c := t.className })]
            grammar := st.grammar ++ [GrammarEv.flagAdded rel command mode] }
  else st

/-- One `os.listdir` item in the file pass: directories contribute nothing
here (they are deferred), files go through `processFile`. -/
def fileStep (rel dirAbs : String) (s : LoadState) : Entry → LoadState
  | .file n tag => processFile rel dirAbs s n tag
  | .dir _ _ _ => s

/-- The leaf-file pass of `_load` over one directory listing. -/
def loadFiles (rel dirAbs : String) (entries : List Entry) (st : LoadState) :
    LoadState :=
  entries.foldl (fileStep rel dirAbs) st

/-- A deferred subdirectory: `(z-index, name, description, listing)` — the
tuple `_load` appends to `subdirs` (line 539). -/
abbrev SubdirInfo := Int × String × String × List Entry

/-- The subdirectory collection of `_load`: a directory entry is deferred
iff its name is not `__pycache__`/`.flexistack` and it carries a manifest;
manifest-less directories are skipped entirely (line 533-535). -/
def subdirEntryInfo : Entry → Option SubdirInfo
  | .dir n (some m) es =>
    if n = "__pycache__" ∨ n = ".flexistack" then none
    else some (m.zIndex, n, m.description, es)
  | _ => none

/-- All deferred subdirectories of one listing, in listing order. -/
def collectSubdirs (entries : List Entry) : List SubdirInfo :=
  entries.filterMap subdirEntryInfo

/-- One step of the stable ascending insertion modelling
`subdirs.sort(key=lambda tup: tup[0])` (line 600). -/
def insertAsc (x : SubdirInfo) : List SubdirInfo → List SubdirInfo
  | [] => [x]
  | y :: ys => if x.1 < y.1 then x :: y :: ys else y :: insertAsc x ys

/-- Stable sort of the deferred subdirectories by ascending `z-index`. -/
def sortZ (l : List SubdirInfo) : List SubdirInfo :=
  l.foldl (fun acc x => insertAsc x acc) []

/-- Membership in an ascending insertion comes from the inserted element or
the original list (termination helper for `loadDir`). -/
def mem_of_mem_insertAsc (x y : SubdirInfo) :
    ∀ l : List SubdirInfo, x ∈ insertAsc y l → x = y ∨ x ∈ l := by
  intro l
  induction l with
  | nil =>
    intro h
    simp only [insertAsc, List.mem_singleton] at h
    exact Or.inl h
  | cons a t ih =>
    intro h
    simp only [insertAsc] at h
    split at h
    · rcases List.mem_cons.mp h with h | h
      · exact Or.inl h
      · exact Or.inr h
    · rcases List.mem_cons.mp h with h | h
      · exact Or.inr (h ▸ List.mem_cons_self a t)
      · rcases ih h with h1 | h1
        · exact Or.inl h1
        · exact Or.inr (List.mem_cons_of_mem a h1)

/-- Membership in the insertion-sort fold comes from the accumulator or the
processed list (termination helper for `loadDir`). -/
def mem_of_mem_sortZAux (x : SubdirInfo) :
    ∀ l acc : List SubdirInfo,
      x ∈ l.foldl (fun a y => insertAsc y a) acc → x ∈ acc ∨ x ∈ l := by
  intro l
  induction l with
  | nil => intro acc h; exact Or.inl h
  | cons a t ih =>
    intro acc h
    rcases ih (insertAsc a acc) h with h1 | h1
    · rcases mem_of_mem_insertAsc x a acc h1 with h2 | h2
      · exact Or.inr (h2 ▸ List.mem_cons_self a t)
      · exact Or.inl h2
    · exact Or.inr (List.mem_cons_of_mem a h1)

/-- `sortZ` only permutes its input (termination helper for `loadDir`). -/
def mem_of_mem_sortZ (x : SubdirInfo) (l : List SubdirInfo)
    (h : x ∈ sortZ l) : x ∈ l := by
  rcases mem_of_mem_sortZAux x l [] h with h1 | h1
  · cases h1
  · exact h1

/-- The listing of a deferred subdirectory is structurally smaller than the
listing it came from: the measure justifying `loadDir`'s recursion. -/
def sizeOf_lt_of_mem_collect (x : SubdirInfo) (entries : List Entry)
    (h : x ∈ sortZ (collectSubdirs entries)) :
    sizeOf x.2.2.2 < sizeOf entries := by
  have h1 := mem_of_mem_sortZ x (collectSubdirs entries) h
  rcases List.mem_filterMap.mp h1 with ⟨e, he, hfe⟩
  have hlt := List.sizeOf_lt_of_mem he
  cases e with
  | file n t => simp [subdirEntryInfo] at hfe
  | dir n m es =>
    cases m with
    | none => simp [subdirEntryInfo] at hfe
    | some mm =>
      simp only [subdirEntryInfo] at hfe
      split at hfe
      · cases hfe
      · cases hfe
        have hsz : sizeOf es < sizeOf (Entry.dir n (some mm) es) := by
          have := Entry.dir.sizeOf_spec n (some mm) es
          omega
        show sizeOf es < sizeOf entries
        omega

/-- The recursive per-directory walk `_load` of `Flexistack.load_actions`
(lines 524-604): process the leaf files of the listing in order, then visit
the deferred subdirectories in ascending `z-index` order, for each adding a
subcommand parser named after the directory plus a nested subparser
collection with dest `<dirname>_action`, and recursing with the extended
relative path (`os.path.relpath` of the subdirectory, slash-joined) and
extended absolute path.  (The source collects subdirectories and processes
files in a single `os.listdir` pass; since collection has no effect on the
state, the two-pass rendering is effect-for-effect identical.) -/
def loadDir (rel dirAbs : String) (entries : List Entry) (st : LoadState) :
    LoadState :=
  (sortZ (collectSubdirs entries)).attach.foldl
    (fun s x =>
      loadDir (rel ++ x.1.2.1 ++ "/") (dirAbs ++ x.1.2.1 ++ "/") x.1.2.2.2
        { s with
          grammar := s.grammar ++
            [GrammarEv.parserAdded rel x.1.2.1,
             GrammarEv.subparsersAdded (x.1.2.1 ++ "_action")] })
    (loadFiles rel dirAbs entries st)
termination_by sizeOf entries
decreasing_by exact sizeOf_lt_of_mem_collect x.1 entries x.2

/-- The visit of one deferred subdirectory (lines 601-604), as a standalone
function: add its parser and subparser group, then recurse. -/
def subdirStep (rel dirAbs : String) (s : LoadState) (a : SubdirInfo) :
    LoadState :=
  loadDir (rel ++ a.2.1 ++ "/") (dirAbs ++ a.2.1 ++ "/") a.2.2.2
    { s with
      grammar := s.grammar ++
        [GrammarEv.parserAdded rel a.2.1,
         GrammarEv.subparsersAdded (a.2.1 ++ "_action")] }

/-- `Flexistack.load_actions` (lines 513-622) over a list of root
directories: add the top-level subparser collection with dest `action`, then
run `_load` for each root with an empty relative path. -/
def load_actions (roots : List (String × List Entry)) (st : LoadState) :
    LoadState :=
  roots.foldl (fun s r => loadDir "" (r.1 ++ "/") r.2 s)
    { st with grammar := st.grammar ++ [GrammarEv.subparsersAdded "action"] }

/-- A Python object as it can come out of `decorator.args[i].value` and end
up as a plugin-registry key or description: `lit v` is the literal value of
an `ast.Constant`; `node i` is an arbitrary child AST-node *object* —
`ast.Attribute`, `ast.Subscript`, `ast.Starred` and `ast.NamedExpr` also
carry a `.value` field, holding another AST node, and the source registers
whatever that access yields, unchecked.  AST-node objects hash and compare
by identity, so `i` is the node object's identity: two distinct argument
nodes never collide. -/
inductive PyObj where
  | lit : PyVal → PyObj
  | node : Nat → PyObj
deriving DecidableEq, Repr

/-- A decorator argument node, classified by how the `.value` access of
lines 416-418 behaves on it: `lit v` is an `ast.Constant` with literal
value `v`; `node i` is a non-constant expression that nevertheless has a
`.value` field (`ast.Attribute`, `ast.Subscript`, `ast.Starred`,
`ast.NamedExpr`), whose `.value` is the child node object with identity
`i`; `novalue` is any expression without a `.value` field (`ast.Name`,
`ast.Call`, `ast.BinOp`, `ast.List`, ...), on which `.value` raises
`AttributeError`. -/
inductive DecArg where
  | lit : PyVal → DecArg
  | node : Nat → DecArg
  | novalue : DecArg
deriving DecidableEq, Repr

/-- `arg.value`: the literal of a constant, the child node object of a
`.value`-bearing non-constant, and `none` for the `AttributeError` raise
on a node without `.value`. -/
def decArgValue : DecArg → Option PyObj
  | .lit v => some (.lit v)
  | .node i => some (.node i)
  | .novalue => none

/-- A decorator expression as the AST walk of `load_plugins._load` sees it:
`call name args` is an `ast.Call` whose function resolves to `name`
(`none` when the function node is neither `ast.Name` nor `ast.Attribute`,
which the walk skips); `other` is any non-call decorator node, also
skipped. -/
inductive Decorator where
  | call : Option String → List DecArg → Decorator
  | other : Decorator
deriving Repr

/-- A class definition found by `ast.walk`: its name and its decorator
list. -/
structure ClassDef where
  name : String
  decorators : List Decorator
deriving Repr

/-- A plugin candidate source file: its basename and the class definitions
in `ast.walk` order. -/
structure PyFile where
  filename : String
  classes : List ClassDef
deriving Repr

/-- Outcome of scanning one file for a `flexi_plugin` class (lines 397-430):
`found` carries the three objects extracted by `.value` (literals or AST
nodes) and the class name, `nothing` means no decorator matched, `raised`
means a matching decorator (name `flexi_plugin`, exactly three arguments)
had an argument without a `.value` field, so `decorator.args[i].value`
raised `AttributeError` mid-extraction. -/
inductive ScanResult where
  | found : PyObj → PyObj → PyObj → String → ScanResult
  | nothing : ScanResult
  | raised : ScanResult
deriving DecidableEq, Repr

/-- Extract `args[0].value`, then `args[1].value`, then `args[2].value`, in
the source's evaluation order; `none` models the `AttributeError` raised by
the first argument node lacking `.value`. -/
def extractPluginArgs : List DecArg → Option (PyObj × PyObj × PyObj)
  | [a, b, c] =>
    match decArgValue a with
    | none => none
    | some va =>
      match decArgValue b with
      | none => none
      | some vb =>
        match decArgValue c with
        | none => none
        | some vc => some (va, vb, vc)
  | _ => none

/-- The decorator loop of `load_plugins._load` for one class: the first
decorator that is a call with resolvable name `flexi_plugin` and exactly
three arguments decides the class (three `.value`-bearing arguments →
`found`, an argument without `.value` → `raised`); every other decorator is
skipped. -/
def scanDecs (cname : String) : List Decorator → ScanResult
  | [] => .nothing
  | .other :: rest => scanDecs cname rest
  | .call none _ :: rest => scanDecs cname rest
  | .call (some dn) args :: rest =>
    if dn = "flexi_plugin" ∧ args.length = 3 then
      match extractPluginArgs args with
      | some (a, b, c) => .found a b c cname
      | none => .raised
    else scanDecs cname rest

/-- The `ast.walk` loop of `load_plugins._load`: classes are scanned in walk
order; the first class that matches (or raises) ends the scan (`found`
breaks, an exception aborts the file). -/
def scanClasses : List ClassDef → ScanResult
  | [] => .nothing
  | c :: rest =>
    match scanDecs c.name c.decorators with
    | .nothing => scanClasses rest
    | r => r

/-- The `FlexiModule` stored by plugin discovery: file path `p`, description
`d` — whatever object `.value` yielded, a literal or an AST node — and
target class name `c`. -/
structure PluginModule where
  p : String
  d : PyObj
  c : String
deriving DecidableEq, Repr

/-- The per-plugin versioned registry, `FlexiModPack` as a version → module
map (keys are arbitrary objects: the source never checks their type). -/
abbrev PluginPack := List (PyObj × PluginModule)

/-- The plugin registry `self.plugins`: plugin-name object → versioned
pack. -/
abbrev PluginReg := List (PyObj × PluginPack)

/-- Python dict `pack[v] = m`: overwrite in place or append. -/
def packInsert (pack : PluginPack) (v : PyObj) (m : PluginModule) :
    PluginPack :=
  match pack with
  | [] => [(v, m)]
  | (k, old) :: rest =>
    if k = v then (v, m) :: rest else (k, old) :: packInsert rest v m

/-- `self.plugins[p_name][p_vers] = mod` after `p_name` is known to be
present: update that name's pack in place. -/
def regSet (reg : PluginReg) (nm v : PyObj) (m : PluginModule) : PluginReg :=
  reg.map (fun p => if p.1 = nm then (p.1, packInsert p.2 v m) else p)

/-- The filename filter of the `load_plugins` walk (line 445):
`filename.endswith('.py') and filename != '__init__.py' and filename !=
'__pycache__'`. -/
def pluginFileOk (filename : String) : Bool :=
  pyEndsWith filename ".py" && filename != "__init__.py" &&
    filename != "__pycache__"

/-- `load_plugins` handling of one candidate file (lines 397-452): run the
scan; on `found (p_name, p_vers, p_desc)` create the `FlexiModPack` for
`p_name` if absent and store the module under `(p_name, p_vers)` (note: no
validation of the three extracted objects — any literal, or even an AST
node produced by `.value` on a non-constant argument, is registered
unchecked); on `nothing` the registry is untouched; on `raised` the
exception is caught by the per-file `try/except` and the registry is
likewise untouched. -/
def loadPluginFile (reg : PluginReg) (f : PyFile) (path : String) : PluginReg :=
  if pluginFileOk f.filename then
    match scanClasses f.classes with
    | .found pname pvers pdesc cname =>
      let reg1 :=
        if lookupA reg pname = none then reg ++ [(pname, [])] else reg
      regSet reg1 pname pvers { p := path, d := pdesc, c := cname }
    | .nothing => reg
    | .raised => reg
  else reg

/-- `Flexistack.load_plugins` (lines 387-452) over the files the directory
walk yields, in walk order. -/
def load_plugins (files : List (String × PyFile)) (reg : PluginReg) :
    PluginReg :=
  files.foldl (fun r pf => loadPluginFile r pf.2 pf.1) reg

/-- The two-phase contract `Flexistack.run` implements for a dispatch with
result `r` and call trace `t`: whenever an action instance named `n` had its
`init` called, the instance came from a successful resolution, and
(1) if `init` returned a value comparing `== True`, then `run` was called
exactly once, directly after `init`, and its outcome is the dispatch result;
(2) if `init` returned any other value, `run` was never called and the
result is `False`;
(3) if `init` raised, `run` was never called and the exception is the
outcome. -/
def TwoPhase (acts : String → Except String ActionObj)
    (r : Except String PyVal) (t : List Ev) : Prop :=
  ∀ n, Ev.initCall n ∈ t →
    ∃ obj, acts n = .ok obj ∧
      (∀ iv, obj.initRes = .ok iv → pyEqTrue iv = true →
        t = [Ev.initCall n, Ev.runCall n] ∧
        (∀ rv, obj.runRes = .ok rv → r = .ok rv) ∧
        (∀ e, obj.runRes = .error e → r = .error e)) ∧
      (∀ iv, obj.initRes = .ok iv → pyEqTrue iv = false →
        t = [Ev.initCall n] ∧ r = .ok (.pbool false)) ∧
      (∀ e, obj.initRes = .error e → t = [Ev.initCall n] ∧ r = .error e)

/-- An action registry with no registered actions: every resolution raises
`KeyError`. -/
def noActs : String → Except String ActionObj := fun _ => .error "KeyError"

/-- The artificially cyclic parsed result of the specification: level
`alpha` points to level `beta` and `beta` points back to `alpha`. -/
def cyclicPargs : List (String × PyVal) :=
  [("action", PyVal.pstr "alpha"), ("alpha_action", PyVal.pstr "beta"),
   ("beta_action", PyVal.pstr "alpha")]

/-- A registry whose every action has an `init` returning the truthy string
`"ok"` (truthy in Python, but not `== True`) and a `run` returning `True`. -/
def truthyActs : String → Except String ActionObj :=
  fun _ =>
    .ok { initRes := .ok (PyVal.pstr "ok"), runRes := .ok (PyVal.pbool true) }

/-- A parsed-argument map selecting the optional action `version`. -/
def optTruthyPargs : List (String × PyVal) :=
  [("action", PyVal.pnone), ("version", PyVal.pbool true)]

/-- A registry whose every action has `init` returning `True` and `run`
returning the string `"done"`. -/
def goodActs : String → Except String ActionObj :=
  fun _ =>
    .ok { initRes := .ok (PyVal.pbool true), runRes := .ok (PyVal.pstr "done") }

/-- A parsed-argument map selecting the optional action `go`. -/
def goodPargs : List (String × PyVal) :=
  [("action", PyVal.pnone), ("go", PyVal.pbool true)]

/-- A parsed-argument map with `action = None` and no value `== True`. -/
def noTruePargs : List (String × PyVal) :=
  [("action", PyVal.pnone), ("verbose", PyVal.pbool false)]

/-- A registry whose every resolution raises. -/
def raisingActs : String → Except String ActionObj :=
  fun _ => .error "RuntimeError: boom"

/-- The inspected tag of an `as_optional="store_true"` action file. -/
def tagOptV : ActionTag :=
  { asOptional := PyVal.pstr "store_true",
    description := PyVal.pstr "Get version", className := "Version",
    hasSetOptionalArgs := false }

/-- The inspected tag of a positional leaf action file (`as_optional=None`,
with a `set_optional_arguments` method). -/
def tagLeaf : ActionTag :=
  { asOptional := PyVal.pnone, description := PyVal.pstr "Gen",
    className := "Gen", hasSetOptionalArgs := true }

/-- A load state that already holds an action registered under `version`. -/
def stWithVersion : LoadState :=
  { registry :=
      [("version",
        { p := "root/version.py", d := PyVal.pstr "Get version",
          c := "Version" })],
    grammar := [] }

/-- The empty load state. -/
def emptyState : LoadState := { registry := [], grammar := [] }

/-- A listing with one manifest-carrying subdirectory (`generate`) and one
manifest-less subdirectory (`hidden`). -/
def c8Entries : List Entry :=
  [Entry.dir "generate" (some { zIndex := 1, description := "Generate" })
     [Entry.file "random-string.py" (some tagLeaf)],
   Entry.dir "hidden" none [Entry.file "secret.py" (some tagLeaf)]]

/-- A plugin file whose `flexi_plugin` decorator carries a wrongly typed
version literal (`1`, an `int`): `@flexi_plugin("p", 1, "d")`. -/
def wrongTypedPluginFile : PyFile :=
  { filename := "dummy_generator.py",
    classes :=
      [{ name := "DummyGenerator",
         decorators :=
           [Decorator.call (some "flexi_plugin")
             [DecArg.lit (PyVal.pstr "p"), DecArg.lit (PyVal.pint 1),
              DecArg.lit (PyVal.pstr "d")]] }] }

/-- A well-formed plugin file: `@flexi_plugin("dummy-generator", "0.1.0",
"A dummy generator")`. -/
def validPluginFile : PyFile :=
  { filename := "dummy_generator.py",
    classes :=
      [{ name := "DummyGenerator",
         decorators :=
           [Decorator.call (some "flexi_plugin")
             [DecArg.lit (PyVal.pstr "dummy-generator"),
              DecArg.lit (PyVal.pstr "0.1.0"),
              DecArg.lit (PyVal.pstr "A dummy generator")]] }] }

/-- `@flexi_plugin(cfg.name, "1.0", "d")`: the first argument is an
`ast.Attribute` node, which has a `.value` field holding the child `Name`
node `cfg` (object identity 0) — the access does not raise, and the source
registers under that AST-node object. -/
def attrArgPluginFile : PyFile :=
  { filename := "configured_plugin.py",
    classes :=
      [{ name := "Configured",
         decorators :=
           [Decorator.call (some "flexi_plugin")
             [DecArg.node 0, DecArg.lit (PyVal.pstr "1.0"),
              DecArg.lit (PyVal.pstr "d")]] }] }

/-- `@flexi_plugin(name, "1.0", "d")`: the first argument is a bare
`ast.Name`, which has no `.value` field — the access raises
`AttributeError` and the per-file handler skips the file. -/
def nameArgPluginFile : PyFile :=
  { filename := "named_plugin.py",
    classes :=
      [{ name := "Named",
         decorators :=
           [Decorator.call (some "flexi_plugin")
             [DecArg.novalue, DecArg.lit (PyVal.pstr "1.0"),
              DecArg.lit (PyVal.pstr "d")]] }] }

/-- A `FlexiModPack` whose single key has a non-numeric version component. -/
def badPack : List (String × Unit) := [("1.0-beta", ())]

/-- A module call for `badPack` that would succeed if ever reached. -/
def badPackCall : Unit → Except String Nat := fun _ => .ok 0

/-! ### Generic helper lemmas -/

theorem foldl_inv {σ α : Type _} (P : σ → Prop) (g : σ → α → σ) :
    ∀ l : List α, (∀ s x, x ∈ l → P s → P (g s x)) → ∀ s, P s →
      P (l.foldl g s) := by
  intro l
  induction l with
  | nil => intro _ s h; exact h
  | cons a t ih =>
    intro hstep s hs
    exact ih (fun s x hx => hstep s x (List.mem_cons_of_mem a hx)) _
      (hstep s a (List.mem_cons_self a t) hs)

theorem foldl_attach_val {α σ : Type _} (l : List α) (g : σ → α → σ)
    (init : σ) :
    l.attach.foldl (fun s x => g s x.1) init = l.foldl g init := by
  have h1 : l.attach.map (fun i => i.1) = l := List.attach_map_subtype_val l
  conv_rhs => rw [← h1]
  rw [List.foldl_map]

theorem lookupA_eq_none {κ α : Type _} [DecidableEq κ] :
    ∀ (l : List (κ × α)) (k : κ), lookupA l k = none ↔ k ∉ l.map Prod.fst := by
  intro l k
  induction l with
  | nil => simp [lookupA]
  | cons p rest ih =>
    cases p with
    | mk a b =>
      simp only [lookupA, List.map_cons, List.mem_cons]
      by_cases hak : a = k
      · subst hak; simp
      · have : ¬ k = a := fun h => hak h.symm
        simp [hak, this, ih]

theorem lookupA_append_missing {κ α : Type _} [DecidableEq κ] :
    ∀ (l : List (κ × α)) (k : κ) (x : α), lookupA l k = none →
      lookupA (l ++ [(k, x)]) k = some x := by
  intro l k x
  induction l with
  | nil => intro _; simp [lookupA]
  | cons p rest ih =>
    cases p with
    | mk a b =>
      intro h
      simp only [lookupA] at h ⊢
      by_cases hak : a = k
      · simp [hak] at h
      · simp only [hak, if_false] at h ⊢
        exact ih h

theorem mapO_eq_none {α β : Type _} (f : α → Option β) :
    ∀ (l : List α) (a : α), a ∈ l → f a = none → mapO f l = none := by
  intro l
  induction l with
  | nil => intro a ha; cases ha
  | cons x xs ih =>
    intro a ha hf
    rcases List.mem_cons.mp ha with h | h
    · subst h; simp [mapO, hf]
    · simp only [mapO]
      cases hx : f x with
      | none => rfl
      | some b => simp [ih a h hf]

theorem mapO_verKeyPair_spec :
    ∀ keys : List String, (∀ k ∈ keys, (parseVer k).isSome = true) →
      ∃ pairs, mapO verKeyPair keys = some pairs ∧
        pairs.map Prod.fst = keys ∧ ∀ p ∈ pairs, parseVer p.1 = some p.2 := by
  intro keys
  induction keys with
  | nil => intro _; exact ⟨[], rfl, rfl, by intro p hp; cases hp⟩
  | cons k ks ih =>
    intro h
    rcases Option.isSome_iff_exists.mp (h k (List.mem_cons_self k ks)) with
      ⟨t, ht⟩
    rcases ih (fun a ha => h a (List.mem_cons_of_mem k ha)) with
      ⟨pairs, h1, h2, h3⟩
    refine ⟨(k, t) :: pairs, ?_, ?_, ?_⟩
    · simp [mapO, verKeyPair, ht, h1]
    · simp [h2]
    · intro p hp
      rcases List.mem_cons.mp hp with h4 | h4
      · subst h4; exact ht
      · exact h3 p h4

/-! ### Integer-tuple comparison is a strict weak order -/

theorem tupleLt_asymm : ∀ a b : List Int, tupleLt a b = true →
    tupleLt b a = false := by
  intro a
  induction a with
  | nil =>
    intro b h
    cases b with
    | nil => simp [tupleLt] at h
    | cons y ys => simp [tupleLt]
  | cons x xs ih =>
    intro b h
    cases b with
    | nil => simp [tupleLt] at h
    | cons y ys =>
      simp only [tupleLt] at h ⊢
      by_cases h1 : x < y
      · have h2 : ¬ y < x := by omega
        rw [if_neg h2, if_pos h1]
      · by_cases h2 : y < x
        · rw [if_neg h1, if_pos h2] at h
          cases h
        · rw [if_neg h1, if_neg h2] at h
          rw [if_neg h2, if_neg h1]
          exact ih ys h

theorem tupleLt_ge_trans : ∀ a b c : List Int, tupleLt a b = false →
    tupleLt b c = false → tupleLt a c = false := by
  intro a
  induction a with
  | nil =>
    intro b c hab hbc
    cases b with
    | nil =>
      cases c with
      | nil => rfl
      | cons z zs => simp [tupleLt] at hbc
    | cons y ys => simp [tupleLt] at hab
  | cons x xs ih =>
    intro b c hab hbc
    cases b with
    | nil =>
      cases c with
      | nil => rfl
      | cons z zs => simp [tupleLt] at hbc
    | cons y ys =>
      cases c with
      | nil => rfl
      | cons z zs =>
        simp only [tupleLt] at hab hbc ⊢
        by_cases h1 : x < y
        · rw [if_pos h1] at hab; cases hab
        · by_cases h2 : y < x
          · by_cases h3 : y < z
            · rw [if_pos h3] at hbc; cases hbc
            · have hxz : ¬ x < z := by omega
              have hzx : z < x := by omega
              rw [if_neg hxz, if_pos hzx]
          · rw [if_neg h1, if_neg h2] at hab
            by_cases h3 : y < z
            · rw [if_pos h3] at hbc; cases hbc
            · by_cases h4 : z < y
              · have hxz : ¬ x < z := by omega
                have hzx : z < x := by omega
                rw [if_neg hxz, if_pos hzx]
              · rw [if_neg h3, if_neg h4] at hbc
                have hxz : ¬ x < z := by omega
                have hzx : ¬ z < x := by omega
                rw [if_neg hxz, if_neg hzx]
                exact ih ys zs hab hbc

/-! ### The descending version sort: permutation and sortedness -/

theorem mem_of_mem_insertDesc (x y : String × List Int) :
    ∀ l, x ∈ insertDesc y l → x = y ∨ x ∈ l := by
  intro l
  induction l with
  | nil =>
    intro h
    simp only [insertDesc, List.mem_singleton] at h
    exact Or.inl h
  | cons a t ih =>
    intro h
    simp only [insertDesc] at h
    split at h
    · rcases List.mem_cons.mp h with h | h
      · exact Or.inl h
      · exact Or.inr h
    · rcases List.mem_cons.mp h with h | h
      · exact Or.inr (h ▸ List.mem_cons_self a t)
      · rcases ih h with h1 | h1
        · exact Or.inl h1
        · exact Or.inr (List.mem_cons_of_mem a h1)

theorem insertDesc_perm (x : String × List Int) :
    ∀ l, (insertDesc x l).Perm (x :: l) := by
  intro l
  induction l with
  | nil => exact List.Perm.refl _
  | cons y ys ih =>
    simp only [insertDesc]
    split
    · exact List.Perm.refl _
    · exact (ih.cons y).trans (List.Perm.swap x y ys)

theorem sortDescAux_perm : ∀ l acc : List (String × List Int),
    (l.foldl (fun a x => insertDesc x a) acc).Perm (acc ++ l) := by
  intro l
  induction l with
  | nil => intro acc; simp
  | cons x xs ih =>
    intro acc
    refine (ih (insertDesc x acc)).trans ?_
    refine (((insertDesc_perm x acc).append_right xs).trans ?_)
    exact List.perm_middle.symm

theorem sortDesc_perm (l : List (String × List Int)) :
    (sortDesc l).Perm l := by
  have h := sortDescAux_perm l []
  simpa [sortDesc] using h

theorem insertDesc_pairwise (x : String × List Int) :
    ∀ l, l.Pairwise (fun a b => tupleLt a.2 b.2 = false) →
      (insertDesc x l).Pairwise (fun a b => tupleLt a.2 b.2 = false) := by
  intro l
  induction l with
  | nil => intro _; exact List.pairwise_singleton _ x
  | cons y ys ih =>
    intro h
    rcases List.pairwise_cons.mp h with ⟨hy, hys⟩
    simp only [insertDesc]
    split
    · rename_i hlt
      refine List.pairwise_cons.mpr ⟨?_, h⟩
      intro z hz
      rcases List.mem_cons.mp hz with h1 | h1
      · subst h1; exact tupleLt_asymm _ _ hlt
      · exact tupleLt_ge_trans _ _ _ (tupleLt_asymm _ _ hlt) (hy z h1)
    · rename_i hnlt
      refine List.pairwise_cons.mpr ⟨?_, ih hys⟩
      intro z hz
      rcases mem_of_mem_insertDesc z x _ hz with h1 | h1
      · subst h1; exact Bool.not_eq_true _ ▸ eq_false_of_ne_true hnlt
      · exact hy z h1

theorem sortDescAux_pairwise : ∀ l acc : List (String × List Int),
    acc.Pairwise (fun a b => tupleLt a.2 b.2 = false) →
    (l.foldl (fun a x => insertDesc x a) acc).Pairwise
      (fun a b => tupleLt a.2 b.2 = false) := by
  intro l
  induction l with
  | nil => intro acc h; exact h
  | cons x xs ih => intro acc h; exact ih _ (insertDesc_pairwise x acc h)

theorem sortDesc_pairwise (l : List (String × List Int)) :
    (sortDesc l).Pairwise (fun a b => tupleLt a.2 b.2 = false) :=
  sortDescAux_pairwise l [] (List.Pairwise.nil)

/-! ### Claims about `FlexiModPack` and `FlexiModules` -/

/-- Claim C2, confirmed: for every `FlexiModPack` whose keys all parse as
dot-separated integer tuples, `versions()` returns exactly those keys
(a permutation) ordered so that no later key's tuple exceeds an earlier
key's tuple — descending component-wise numeric order, not lexicographic
string order; in particular `versions()` on keys `"0.9"`, `"0.10"` is
`["0.10", "0.9"]`. -/
theorem C2_theorem :
    (∀ keys : List String, (∀ k ∈ keys, (parseVer k).isSome = true) →
      ∃ l, versions keys = .ok l ∧ l.Perm keys ∧
        l.Pairwise (fun a b =>
          tupleLt ((parseVer a).getD []) ((parseVer b).getD []) = false)) ∧
    versions ["0.9", "0.10"] = .ok ["0.10", "0.9"] := by
  constructor
  · intro keys h
    rcases mapO_verKeyPair_spec keys h with ⟨pairs, h1, h2, h3⟩
    refine ⟨(sortDesc pairs).map Prod.fst, ?_, ?_, ?_⟩
    · simp [versions, h1]
    · exact h2 ▸ ((sortDesc_perm pairs).map Prod.fst)
    · have hp := sortDesc_pairwise pairs
      rw [List.pairwise_map]
      refine List.Pairwise.imp_of_mem ?_ hp
      intro a b ha hb hab
      have ha' := (sortDesc_perm pairs).mem_iff.mp ha
      have hb' := (sortDesc_perm pairs).mem_iff.mp hb
      rw [h3 a ha', h3 b hb']
      simpa using hab
  · rfl

/-- Witness for C2: the general part evaluated at the pack with keys
`"0.9"` and `"0.10"`. -/
theorem C2_witness :
    ∃ l, versions ["0.9", "0.10"] = .ok l ∧ l.Perm ["0.9", "0.10"] ∧
      l.Pairwise (fun a b =>
        tupleLt ((parseVer a).getD []) ((parseVer b).getD []) = false) :=
  C2_theorem.1 ["0.9", "0.10"] (by decide)

/-- Claim C9, confirmed: invoking a `FlexiModules` registry as a callable
never returns: its `__call__` re-invokes the same instance with the same
arguments, so no amount of stack frames produces a value (CPython ends the
recursion only with `RecursionError`). -/
theorem C9_theorem : ∀ (α ρ : Type) (fuel : Nat) (fs : α) (am : Bool),
    @flexiModulesCall α ρ fuel fs am = none := by
  intro α ρ fuel
  induction fuel with
  | zero => intro fs am; rfl
  | succ n ih => intro fs am; exact ih fs am

/-- Claim C10, confirmed: if any key of a `FlexiModPack` has a dot-separated
component on which `int()` raises (for example `"1.0-beta"`), `versions()`
raises `ValueError` instead of returning an ordering, and latest resolution
through `FlexiModPack.__call__` propagates the same exception. -/
theorem C10_theorem :
    (∀ keys : List String,
      (∃ k ∈ keys, ∃ c ∈ pySplitDot k, pyInt c = none) →
      versions keys =
        .error "ValueError: invalid literal for int() with base 10") ∧
    (∀ (μ ρ : Type) (pack : List (String × μ)) (call : μ → Except String ρ),
      (∃ k ∈ pack.map Prod.fst, ∃ c ∈ pySplitDot k, pyInt c = none) →
      flexiModPackCall pack call =
        .error "ValueError: invalid literal for int() with base 10") := by
  have hver : ∀ keys : List String,
      (∃ k ∈ keys, ∃ c ∈ pySplitDot k, pyInt c = none) →
      versions keys =
        .error "ValueError: invalid literal for int() with base 10" := by
    rintro keys ⟨k, hk, c, hc, hnone⟩
    have h1 : parseVer k = none := mapO_eq_none pyInt _ c hc hnone
    have h2 : verKeyPair k = none := by simp [verKeyPair, h1]
    have h3 : mapO verKeyPair keys = none := mapO_eq_none verKeyPair keys k hk h2
    simp [versions, h3]
  constructor
  · exact hver
  · intro μ ρ pack call h
    have h4 := hver _ h
    simp [flexiModPackCall, h4]

/-- Witness for C10: the pack with single key `"1.0-beta"`. -/
theorem C10_witness :
    flexiModPackCall badPack badPackCall =
      .error "ValueError: invalid literal for int() with base 10" :=
  C10_theorem.2 Unit Nat badPack badPackCall (by decide)

/-! ### Dispatch lemmas -/

theorem option_get_eq {α : Type _} (o : Option α) (h : o.isSome = true) (x : α)
    (hx : o = some x) : o.get h = x := by subst hx; rfl

theorem twoPhase_nil (acts : String → Except String ActionObj)
    (r : Except String PyVal) : TwoPhase acts r [] := by
  intro n hn; cases hn

theorem twoPhase_init_raised (acts : String → Except String ActionObj)
    (k : String) (obj : ActionObj) (e : String) (hk : acts k = .ok obj)
    (hini : obj.initRes = .error e) :
    TwoPhase acts (.error e) [Ev.initCall k] := by
  intro n hn
  have hnk : n = k := Ev.initCall.inj (List.mem_singleton.mp hn)
  subst hnk
  refine ⟨obj, hk, ?_, ?_, ?_⟩
  · intro iv hiv _; rw [hini] at hiv; exact Except.noConfusion hiv
  · intro iv hiv _; rw [hini] at hiv; exact Except.noConfusion hiv
  · intro e' he'
    rw [hini] at he'
    injection he' with h
    subst h
    exact ⟨rfl, rfl⟩

theorem twoPhase_init_false (acts : String → Except String ActionObj)
    (k : String) (obj : ActionObj) (iv : PyVal) (hk : acts k = .ok obj)
    (hini : obj.initRes = .ok iv) (hiv : pyEqTrue iv = false) :
    TwoPhase acts (.ok (.pbool false)) [Ev.initCall k] := by
  intro n hn
  have hnk : n = k := Ev.initCall.inj (List.mem_singleton.mp hn)
  subst hnk
  refine ⟨obj, hk, ?_, ?_, ?_⟩
  · intro iv' hiv' htrue
    rw [hini] at hiv'
    injection hiv' with h
    subst h
    rw [hiv] at htrue
    cases htrue
  · intro iv' _ _; exact ⟨rfl, rfl⟩
  · intro e he; rw [hini] at he; exact Except.noConfusion he

theorem twoPhase_init_true (acts : String → Except String ActionObj)
    (k : String) (obj : ActionObj) (iv : PyVal) (hk : acts k = .ok obj)
    (hini : obj.initRes = .ok iv) (hiv : pyEqTrue iv = true) :
    TwoPhase acts obj.runRes [Ev.initCall k, Ev.runCall k] := by
  intro n hn
  have hnk : n = k := by
    rcases List.mem_cons.mp hn with h | h
    · exact Ev.initCall.inj h
    · exact absurd (List.mem_singleton.mp h) (by simp)
  subst hnk
  refine ⟨obj, hk, ?_, ?_, ?_⟩
  · intro iv' _ _
    exact ⟨rfl, fun rv hrv => hrv, fun e he => he⟩
  · intro iv' hiv' hfalse
    rw [hini] at hiv'
    injection hiv' with h
    subst h
    rw [hiv] at hfalse
    cases hfalse
  · intro e he; rw [hini] at he; exact Except.noConfusion he

theorem optLoop_twoPhase (acts : String → Except String ActionObj) :
    ∀ pargs : List (String × PyVal),
      TwoPhase acts (optLoop acts pargs).1 (optLoop acts pargs).2 := by
  intro pargs
  induction pargs with
  | nil => exact twoPhase_nil acts _
  | cons p rest ih =>
    cases p with
    | mk k v =>
      simp only [optLoop]
      by_cases hv : pyEqTrue v = true
      · rw [if_pos hv]
        cases hact : acts k with
        | error e => exact twoPhase_nil acts _
        | ok obj =>
          simp only []
          cases hini : obj.initRes with
          | error e =>
            exact twoPhase_init_raised acts k obj e hact hini
          | ok iv =>
            simp only []
            by_cases hiv : pyEqTrue iv = true
            · rw [if_pos hiv]
              cases hrun : obj.runRes with
              | error e =>
                have h2 := twoPhase_init_true acts k obj iv hact hini hiv
                rw [hrun] at h2
                exact h2
              | ok rv =>
                have h2 := twoPhase_init_true acts k obj iv hact hini hiv
                rw [hrun] at h2
                exact h2
            · rw [if_neg hiv]
              exact twoPhase_init_false acts k obj iv hact hini
                (by simpa using hiv)
      · rw [if_neg hv]
        exact ih

theorem posLoop_twoPhase (acts : String → Except String ActionObj)
    (pargs : List (String × PyVal)) :
    ∀ (fuel it : Nat) (cur : PyVal) (app : String)
      (out : Except String PyVal × Nat × List Ev),
      posLoop acts pargs fuel it cur app = some out →
      TwoPhase acts out.1 out.2.2 := by
  intro fuel
  induction fuel with
  | zero => intro it cur app out h; simp [posLoop] at h
  | succ f ih =>
    intro it cur app out h
    unfold posLoop at h
    by_cases h5 : 5 < it + 1
    · rw [if_pos h5] at h
      injection h with h'
      subst h'
      exact twoPhase_nil acts _
    · rw [if_neg h5] at h
      cases cur with
      | pnone => injection h with h'; subst h'; exact twoPhase_nil acts _
      | pbool b => injection h with h'; subst h'; exact twoPhase_nil acts _
      | pint n => injection h with h'; subst h'; exact twoPhase_nil acts _
      | pstr s =>
        dsimp only [] at h
        cases hl : lookupA pargs (s ++ "_action") with
        | none =>
          rw [hl] at h
          cases hact : acts (app ++ s) with
          | error e =>
            rw [hact] at h
            injection h with h'
            subst h'
            exact twoPhase_nil acts _
          | ok obj =>
            rw [hact] at h
            simp only [] at h
            cases hini : obj.initRes with
            | error e =>
              rw [hini] at h
              injection h with h'
              subst h'
              exact twoPhase_init_raised acts (app ++ s) obj e hact hini
            | ok iv =>
              rw [hini] at h
              dsimp only [] at h
              by_cases hiv : pyEqTrue iv = true
              · rw [if_pos hiv] at h
                cases hrun : obj.runRes with
                | error e =>
                  rw [hrun] at h
                  injection h with h'
                  subst h'
                  have h2 := twoPhase_init_true acts (app ++ s) obj iv hact
                    hini hiv
                  rw [hrun] at h2
                  exact h2
                | ok rv =>
                  rw [hrun] at h
                  injection h with h'
                  subst h'
                  have h2 := twoPhase_init_true acts (app ++ s) obj iv hact
                    hini hiv
                  rw [hrun] at h2
                  exact h2
              · rw [if_neg hiv] at h
                injection h with h'
                subst h'
                exact twoPhase_init_false acts (app ++ s) obj iv hact hini
                  (by simpa using hiv)
        | some v =>
          rw [hl] at h
          cases v with
          | pnone => injection h with h'; subst h'; exact twoPhase_nil acts _
          | pbool b => exact ih _ _ _ _ h
          | pint n => exact ih _ _ _ _ h
          | pstr s2 => exact ih _ _ _ _ h

theorem runBody_keyerr (acts : String → Except String ActionObj)
    (pargs : List (String × PyVal)) (hl : lookupA pargs "action" = none) :
    runBody acts pargs = (.error "KeyError", []) := by
  unfold runBody; rw [hl]

theorem runBody_opt (acts : String → Except String ActionObj)
    (pargs : List (String × PyVal))
    (hl : lookupA pargs "action" = some .pnone) :
    runBody acts pargs = optLoop acts pargs := by
  unfold runBody; rw [hl]

theorem runBody_pos (acts : String → Except String ActionObj)
    (pargs : List (String × PyVal)) (v : PyVal)
    (out : Except String PyVal × Nat × List Ev)
    (hl : lookupA pargs "action" = some v) (hv : v ≠ .pnone)
    (hp : posLoop acts pargs 6 0 v "" = some out) :
    runBody acts pargs = (out.1, out.2.2) := by
  unfold runBody
  rw [hl]
  cases v with
  | pnone => exact absurd rfl hv
  | pbool b => dsimp only []; rw [option_get_eq _ _ out hp]
  | pint n => dsimp only []; rw [option_get_eq _ _ out hp]
  | pstr s => dsimp only []; rw [option_get_eq _ _ out hp]

theorem flexistackRun_ok (acts : String → Except String ActionObj)
    (pargs : List (String × PyVal)) (v : PyVal) (t : List Ev)
    (h : runBody acts pargs = (.ok v, t)) :
    flexistackRun acts pargs = (v, t) := by
  unfold flexistackRun; rw [h]

theorem flexistackRun_err (acts : String → Except String ActionObj)
    (pargs : List (String × PyVal)) (e : String) (t : List Ev)
    (h : runBody acts pargs = (.error e, t)) :
    flexistackRun acts pargs = (.pbool false, t) := by
  unfold flexistackRun; rw [h]

theorem posLoop_mono (acts : String → Except String ActionObj)
    (pargs : List (String × PyVal)) :
    ∀ (f1 f2 it : Nat) (cur : PyVal) (app : String)
      (out : Except String PyVal × Nat × List Ev),
      posLoop acts pargs f1 it cur app = some out → f1 ≤ f2 →
      posLoop acts pargs f2 it cur app = some out := by
  intro f1
  induction f1 with
  | zero => intro f2 it cur app out h; simp [posLoop] at h
  | succ f ih =>
    intro f2 it cur app out h hle
    cases f2 with
    | zero => omega
    | succ f2' =>
      unfold posLoop at h ⊢
      by_cases h5 : 5 < it + 1
      · rw [if_pos h5] at h ⊢; exact h
      · rw [if_neg h5] at h ⊢
        cases cur with
        | pnone => exact h
        | pbool b => exact h
        | pint n => exact h
        | pstr s =>
          dsimp only [] at h ⊢
          cases hl : lookupA pargs (s ++ "_action") with
          | none => rw [hl] at h; exact h
          | some v =>
            rw [hl] at h
            cases v with
            | pnone => exact h
            | pbool b => exact ih f2' _ _ _ _ h (by omega)
            | pint n => exact ih f2' _ _ _ _ h (by omega)
            | pstr s2 => exact ih f2' _ _ _ _ h (by omega)

theorem optLoop_no_true (acts : String → Except String ActionObj) :
    ∀ pargs : List (String × PyVal), (∀ p ∈ pargs, pyEqTrue p.2 = false) →
      optLoop acts pargs = (.ok .pnone, []) := by
  intro pargs
  induction pargs with
  | nil => intro _; rfl
  | cons p rest ih =>
    intro h
    cases p with
    | mk k v =>
      have hv := h (k, v) (List.mem_cons_self _ _)
      simp only [optLoop]
      rw [if_neg (by simp [hv])]
      exact ih (fun q hq => h q (List.mem_cons_of_mem _ hq))

/-! ### Claims about `Flexistack.run` -/

/-- Counterexample to claim C1 as stated: an action whose `init` returns the
truthy string `"ok"` has `run` never called (the trace records only the
`init` call) and the dispatch result is `False` — the source compares
`obj.init(...) == True`, not truthiness, so a truthy success signal does not
trigger `run`. -/
theorem C1_counterexample :
    pyTruthy (PyVal.pstr "ok") = true ∧
    flexistackRun truthyActs optTruthyPargs =
      (PyVal.pbool false, [Ev.initCall "version"]) :=
  ⟨rfl, rfl⟩

/-- Claim C1 as amended: for every dispatch, the two-phase contract holds
with `init`'s success signal read as *comparing `== True`* (Python `True` or
`1`), not as truthiness: whenever an action instance had `init` called, then
if `init` returned a value `== True`, `run` was called exactly once and its
normal result is the dispatch result (an `init` return that is truthy but
not `== True` counts as failure: `run` is never called and dispatch yields
`False`); a raised `init`/`run` exception becomes the outcome handed to the
dispatch boundary. -/
theorem C1_theorem :
    ∀ (acts : String → Except String ActionObj)
      (pargs : List (String × PyVal)),
      TwoPhase acts (runBody acts pargs).1 (runBody acts pargs).2 ∧
      (∀ v t, runBody acts pargs = (.ok v, t) →
        flexistackRun acts pargs = (v, t)) := by
  intro acts pargs
  constructor
  · cases hl : lookupA pargs "action" with
    | none => rw [runBody_keyerr acts pargs hl]; exact twoPhase_nil acts _
    | some v =>
      cases hnv : v with
      | pnone => rw [runBody_opt acts pargs (hnv ▸ hl)]
                 exact optLoop_twoPhase acts pargs
      | pbool b =>
        rcases Option.isSome_iff_exists.mp
          (posLoop_isSome acts pargs 6 0 (.pbool b) "" rfl (by omega)) with
          ⟨out, hp⟩
        rw [runBody_pos acts pargs (.pbool b) out (hnv ▸ hl) (by simp) hp]
        exact posLoop_twoPhase acts pargs 6 0 _ "" out hp
      | pint n =>
        rcases Option.isSome_iff_exists.mp
          (posLoop_isSome acts pargs 6 0 (.pint n) "" rfl (by omega)) with
          ⟨out, hp⟩
        rw [runBody_pos acts pargs (.pint n) out (hnv ▸ hl) (by simp) hp]
        exact posLoop_twoPhase acts pargs 6 0 _ "" out hp
      | pstr s =>
        rcases Option.isSome_iff_exists.mp
          (posLoop_isSome acts pargs 6 0 (.pstr s) "" rfl (by omega)) with
          ⟨out, hp⟩
        rw [runBody_pos acts pargs (.pstr s) out (hnv ▸ hl) (by simp) hp]
        exact posLoop_twoPhase acts pargs 6 0 _ "" out hp
  · intro v t h
    exact flexistackRun_ok acts pargs v t h

/-- Witness for C1: an action whose `init` returns `True` and whose `run`
returns `"done"` has its `run` result returned by dispatch. -/
theorem C1_witness :
    flexistackRun goodActs goodPargs =
      (PyVal.pstr "done", [Ev.initCall "go", Ev.runCall "go"]) :=
  (C1_theorem goodActs goodPargs).2 (PyVal.pstr "done")
    [Ev.initCall "go", Ev.runCall "go"] rfl

/-- Claim C3, confirmed: the positional branch of `Flexistack.run` always
terminates — with the counter started at 0, six loop entries always produce
a result, and any larger fuel yields the same result (so the source's
unbounded `while True` terminates); on the artificially cyclic parsed
result (`alpha` → `beta` → `alpha`) the loop performs five descents and the
sixth entry trips the `iterration > 5` breaker, returning `False` with the
counter at 6 and no action ever resolved. -/
theorem C3_theorem :
    (∀ (acts : String → Except String ActionObj)
       (pargs : List (String × PyVal)) (cur : PyVal),
      ∃ out, posLoop acts pargs 6 0 cur "" = some out ∧
        ∀ fuel, 6 ≤ fuel → posLoop acts pargs fuel 0 cur "" = some out) ∧
    posLoop noActs cyclicPargs 6 0 (PyVal.pstr "alpha") "" =
      some (.ok (.pbool false), 6, []) ∧
    flexistackRun noActs cyclicPargs = (PyVal.pbool false, []) := by
  refine ⟨?_, rfl, rfl⟩
  intro acts pargs cur
  rcases Option.isSome_iff_exists.mp
    (posLoop_isSome acts pargs 6 0 cur "" rfl (by omega)) with ⟨out, hp⟩
  exact ⟨out, hp, fun fuel hf => posLoop_mono acts pargs 6 fuel 0 cur "" out hp hf⟩

/-- Witness for C3: the general bound applied to the cyclic parsed result
with surplus fuel 7 still stops with `False` at counter value 6. -/
theorem C3_witness :
    posLoop noActs cyclicPargs 7 0 (PyVal.pstr "alpha") "" =
      some (.ok (.pbool false), 6, []) := by
  obtain ⟨out, h1, h2⟩ := C3_theorem.1 noActs cyclicPargs (PyVal.pstr "alpha")
  have h4 : out = (.ok (.pbool false), 6, []) := by
    have h3 := C3_theorem.2.1
    rw [h1] at h3
    injection h3
  rw [h2 7 (by omega), h4]

/-- Claim C4, confirmed: every modelled exception (`Exception` subclass)
raised during resolution, instantiation, lazy materialization, `init` or
`run` is caught at the dispatch boundary: whenever the `try` body of
`Flexistack.run` ends in a raised exception, `run` returns the Python value
`False` instead of propagating it. -/
theorem C4_theorem :
    ∀ (acts : String → Except String ActionObj)
      (pargs : List (String × PyVal)) (e : String) (t : List Ev),
      runBody acts pargs = (.error e, t) →
      flexistackRun acts pargs = (.pbool false, t) := by
  intro acts pargs e t h
  exact flexistackRun_err acts pargs e t h

/-- Witness for C4: a registry whose resolution raises `RuntimeError` makes
dispatch return `False`. -/
theorem C4_witness :
    flexistackRun raisingActs optTruthyPargs = (PyVal.pbool false, []) :=
  C4_theorem raisingActs optTruthyPargs "RuntimeError: boom" [] rfl

/-- Counterexample to claim C5 as stated: with `action = None` and no
optional flag `== True`, `Flexistack.run` falls through the `for` loop and
the `try` block, returning Python `None` — not `False`. -/
theorem C5_counterexample :
    flexistackRun noActs noTruePargs = (PyVal.pnone, []) ∧
    PyVal.pnone ≠ PyVal.pbool false :=
  ⟨rfl, by decide⟩

/-- Claim C5 as amended: for every parsed-argument map whose reserved key
`action` is `None` and in which no key holds a value comparing `== True`,
dispatch fails — no action is resolved (empty trace) — and `Flexistack.run`
returns the falsy value `None` (the function's implicit return), not
`False`. -/
theorem C5_theorem :
    ∀ (acts : String → Except String ActionObj)
      (pargs : List (String × PyVal)),
      lookupA pargs "action" = some PyVal.pnone →
      (∀ p ∈ pargs, pyEqTrue p.2 = false) →
      flexistackRun acts pargs = (PyVal.pnone, []) ∧
      pyTruthy PyVal.pnone = false := by
  intro acts pargs hl hno
  refine ⟨?_, rfl⟩
  have h1 := optLoop_no_true acts pargs hno
  have h2 : runBody acts pargs = (.ok .pnone, []) := by
    rw [runBody_opt acts pargs hl, h1]
  exact flexistackRun_ok acts pargs .pnone [] h2

/-- Witness for C5: the map `{action: None, verbose: False}`. -/
theorem C5_witness :
    flexistackRun noActs noTruePargs = (PyVal.pnone, []) ∧
    pyTruthy PyVal.pnone = false :=
  C5_theorem noActs noTruePargs rfl (by decide)

/-! ### Action-discovery lemmas -/

theorem processFile_hit (rel dirAbs : String) (st : LoadState) (name : String)
    (tag : Option ActionTag) (r : FlexiModule)
    (h : lookupA st.registry (rel ++ pyReplace name ".py" "") = some r) :
    processFile rel dirAbs st name tag = st := by
  unfold processFile
  split
  · rfl
  · split
    · cases tag with
      | none => rfl
      | some t =>
        dsimp only []
        cases hopt : t.asOptional with
        | pnone =>
          dsimp only []
          split
          · rw [h]
          · rfl
        | pbool b => dsimp only []; rw [h]
        | pint n => dsimp only []; rw [h]
        | pstr s => dsimp only []; rw [h]
    · rfl

theorem processFile_shape (rel dirAbs : String) (st : LoadState)
    (name : String) (tag : Option ActionTag) :
    processFile rel dirAbs st name tag = st ∨
    ∃ key mod evs, lookupA st.registry key = none ∧
      processFile rel dirAbs st name tag =
        { registry := st.registry ++ [(key, mod)],
          grammar := st.grammar ++ evs } := by
  unfold processFile
  split
  · exact Or.inl rfl
  · split
    · cases tag with
      | none => exact Or.inl rfl
      | some t =>
        dsimp only []
        cases hopt : t.asOptional with
        | pnone =>
          dsimp only []
          split
          · cases hlk : lookupA st.registry (rel ++ pyReplace name ".py" "") with
            | some r => exact Or.inl rfl
            | none => exact Or.inr ⟨_, _, _, hlk, rfl⟩
          · exact Or.inl rfl
        | pbool b =>
          dsimp only []
          cases hlk : lookupA st.registry (rel ++ pyReplace name ".py" "") with
          | some r => exact Or.inl rfl
          | none => exact Or.inr ⟨_, _, _, hlk, rfl⟩
        | pint n =>
          dsimp only []
          cases hlk : lookupA st.registry (rel ++ pyReplace name ".py" "") with
          | some r => exact Or.inl rfl
          | none => exact Or.inr ⟨_, _, _, hlk, rfl⟩
        | pstr s =>
          dsimp only []
          cases hlk : lookupA st.registry (rel ++ pyReplace name ".py" "") with
          | some r => exact Or.inl rfl
          | none => exact Or.inr ⟨_, _, _, hlk, rfl⟩
    · exact Or.inl rfl

theorem fileStep_shape (rel dirAbs : String) (st : LoadState) (e : Entry) :
    fileStep rel dirAbs st e = st ∨
    ∃ key mod evs, lookupA st.registry key = none ∧
      fileStep rel dirAbs st e =
        { registry := st.registry ++ [(key, mod)],
          grammar := st.grammar ++ evs } := by
  cases e with
  | file n tag => exact processFile_shape rel dirAbs st n tag
  | dir n m es => exact Or.inl rfl

theorem nodup_of_append_missing (l : List (String × FlexiModule))
    (k : String) (mod : FlexiModule) (hn : (l.map Prod.fst).Nodup)
    (hk : lookupA l k = none) :
    ((l ++ [(k, mod)]).map Prod.fst).Nodup := by
  rw [List.map_append]
  simp only [List.map_cons, List.map_nil]
  rw [List.nodup_append]
  refine ⟨hn, List.nodup_singleton k, ?_⟩
  intro a ha hb
  rw [List.mem_singleton] at hb
  subst hb
  exact (lookupA_eq_none l a).mp hk ha

theorem fileStep_nodup (rel dirAbs : String) (st : LoadState) (e : Entry)
    (h : (st.registry.map Prod.fst).Nodup) :
    ((fileStep rel dirAbs st e).registry.map Prod.fst).Nodup := by
  rcases fileStep_shape rel dirAbs st e with h1 | ⟨key, mod, evs, hk, h1⟩
  · rw [h1]; exact h
  · rw [h1]; exact nodup_of_append_missing _ key mod h hk

theorem fileStep_grammar (rel dirAbs : String) (s : LoadState) (e : Entry) :
    ∃ tl, (fileStep rel dirAbs s e).grammar = s.grammar ++ tl := by
  rcases fileStep_shape rel dirAbs s e with h1 | ⟨key, mod, evs, hk, h1⟩
  · exact ⟨[], by rw [h1]; simp⟩
  · exact ⟨evs, by rw [h1]⟩

theorem loadFiles_nodup (rel dirAbs : String) (entries : List Entry)
    (st : LoadState) (h : (st.registry.map Prod.fst).Nodup) :
    ((loadFiles rel dirAbs entries st).registry.map Prod.fst).Nodup :=
  foldl_inv (fun s => (s.registry.map Prod.fst).Nodup) (fileStep rel dirAbs)
    entries (fun s e _ hs => fileStep_nodup rel dirAbs s e hs) st h

theorem loadFiles_grammar (rel dirAbs : String) (entries : List Entry)
    (st : LoadState) :
    ∃ tl, (loadFiles rel dirAbs entries st).grammar = st.grammar ++ tl := by
  refine foldl_inv (fun s => ∃ tl, s.grammar = st.grammar ++ tl)
    (fileStep rel dirAbs) entries ?_ st ⟨[], by simp⟩
  intro s e _ hP
  rcases hP with ⟨t1, h1⟩
  rcases fileStep_grammar rel dirAbs s e with ⟨t2, h2⟩
  exact ⟨t1 ++ t2, by rw [h2, h1, List.append_assoc]⟩

theorem loadDir_eq (rel dirAbs : String) (entries : List Entry)
    (st : LoadState) :
    loadDir rel dirAbs entries st =
      (sortZ (collectSubdirs entries)).foldl (subdirStep rel dirAbs)
        (loadFiles rel dirAbs entries st) := by
  rw [loadDir]
  exact foldl_attach_val _ (subdirStep rel dirAbs) _

theorem sizeOf_list_pos {α : Type _} [SizeOf α] (l : List α) : 0 < sizeOf l := by
  cases l with
  | nil => simp
  | cons a t => simp only [List.cons.sizeOf_spec]; omega

theorem loadDir_grammar_mono_aux : ∀ N : Nat, ∀ entries : List Entry,
    sizeOf entries ≤ N → ∀ (rel dirAbs : String) (st : LoadState),
      ∃ tl, (loadDir rel dirAbs entries st).grammar = st.grammar ++ tl := by
  intro N
  induction N with
  | zero =>
    intro entries h
    exact absurd h (by have := sizeOf_list_pos entries; omega)
  | succ n ih =>
    intro entries hsz rel dirAbs st
    rw [loadDir_eq]
    refine foldl_inv (fun s => ∃ tl, s.grammar = st.grammar ++ tl)
      (subdirStep rel dirAbs) (sortZ (collectSubdirs entries)) ?_ _
      (loadFiles_grammar rel dirAbs entries st)
    intro s x hx hP
    rcases hP with ⟨t1, h1⟩
    have hlt := sizeOf_lt_of_mem_collect x entries hx
    rcases ih x.2.2.2 (by omega) (rel ++ x.2.1 ++ "/")
      (dirAbs ++ x.2.1 ++ "/")
      { s with grammar := s.grammar ++
          [GrammarEv.parserAdded rel x.2.1,
           GrammarEv.subparsersAdded (x.2.1 ++ "_action")] } with ⟨t2, h2⟩
    refine ⟨t1 ++ ([GrammarEv.parserAdded rel x.2.1,
      GrammarEv.subparsersAdded (x.2.1 ++ "_action")] ++ t2), ?_⟩
    show (subdirStep rel dirAbs s x).grammar = _
    unfold subdirStep
    rw [h2]
    dsimp only []
    rw [h1]
    simp [List.append_assoc]

theorem loadDir_grammar_mono (entries : List Entry) (rel dirAbs : String)
    (st : LoadState) :
    ∃ tl, (loadDir rel dirAbs entries st).grammar = st.grammar ++ tl :=
  loadDir_grammar_mono_aux (sizeOf entries) entries (Nat.le_refl _) rel dirAbs
    st

theorem loadDir_nodup_aux : ∀ N : Nat, ∀ entries : List Entry,
    sizeOf entries ≤ N → ∀ (rel dirAbs : String) (st : LoadState),
      (st.registry.map Prod.fst).Nodup →
      ((loadDir rel dirAbs entries st).registry.map Prod.fst).Nodup := by
  intro N
  induction N with
  | zero =>
    intro entries h
    exact absurd h (by have := sizeOf_list_pos entries; omega)
  | succ n ih =>
    intro entries hsz rel dirAbs st hn
    rw [loadDir_eq]
    refine foldl_inv (fun s => (s.registry.map Prod.fst).Nodup)
      (subdirStep rel dirAbs) (sortZ (collectSubdirs entries)) ?_ _
      (loadFiles_nodup rel dirAbs entries st hn)
    intro s x hx hP
    have hlt := sizeOf_lt_of_mem_collect x entries hx
    show ((subdirStep rel dirAbs s x).registry.map Prod.fst).Nodup
    unfold subdirStep
    exact ih x.2.2.2 (by omega) _ _ _ hP

theorem loadDir_nodup (entries : List Entry) (rel dirAbs : String)
    (st : LoadState) (h : (st.registry.map Prod.fst).Nodup) :
    ((loadDir rel dirAbs entries st).registry.map Prod.fst).Nodup :=
  loadDir_nodup_aux (sizeOf entries) entries (Nat.le_refl _) rel dirAbs st h

theorem mem_insertAsc_self (x : SubdirInfo) : ∀ l, x ∈ insertAsc x l := by
  intro l
  induction l with
  | nil => exact List.mem_singleton.mpr rfl
  | cons y ys ih =>
    simp only [insertAsc]
    split
    · exact List.mem_cons_self x (y :: ys)
    · exact List.mem_cons_of_mem y ih

theorem mem_insertAsc_of_mem (x y : SubdirInfo) :
    ∀ l, x ∈ l → x ∈ insertAsc y l := by
  intro l
  induction l with
  | nil => intro h; cases h
  | cons a t ih =>
    intro h
    simp only [insertAsc]
    split
    · exact List.mem_cons_of_mem y h
    · rcases List.mem_cons.mp h with h1 | h1
      · exact h1 ▸ List.mem_cons_self a (insertAsc y t)
      · exact List.mem_cons_of_mem a (ih h1)

theorem mem_sortZ_aux (x : SubdirInfo) : ∀ l acc : List SubdirInfo,
    x ∈ acc ∨ x ∈ l → x ∈ l.foldl (fun a y => insertAsc y a) acc := by
  intro l
  induction l with
  | nil =>
    intro acc h
    rcases h with h | h
    · exact h
    · cases h
  | cons a t ih =>
    intro acc h
    apply ih
    rcases h with h | h
    · exact Or.inl (mem_insertAsc_of_mem x a acc h)
    · rcases List.mem_cons.mp h with h1 | h1
      · exact Or.inl (h1 ▸ mem_insertAsc_self a acc)
      · exact Or.inr h1

theorem mem_sortZ_intro (x : SubdirInfo) (l : List SubdirInfo) (h : x ∈ l) :
    x ∈ sortZ l :=
  mem_sortZ_aux x l [] (Or.inr h)

theorem subdirStep_grammar_mem (rel dirAbs : String) (s : LoadState)
    (x : SubdirInfo) (ev : GrammarEv) (h : ev ∈ s.grammar) :
    ev ∈ (subdirStep rel dirAbs s x).grammar := by
  unfold subdirStep
  obtain ⟨tl, htl⟩ := loadDir_grammar_mono x.2.2.2 (rel ++ x.2.1 ++ "/")
    (dirAbs ++ x.2.1 ++ "/")
    { s with grammar := s.grammar ++
        [GrammarEv.parserAdded rel x.2.1,
         GrammarEv.subparsersAdded (x.2.1 ++ "_action")] }
  rw [htl]
  exact List.mem_append_left _ (List.mem_append_left _ h)

theorem foldl_subdir_keeps (rel dirAbs : String) :
    ∀ (l : List SubdirInfo) (s : LoadState) (ev : GrammarEv),
      ev ∈ s.grammar → ev ∈ (l.foldl (subdirStep rel dirAbs) s).grammar := by
  intro l
  induction l with
  | nil => intro s ev h; exact h
  | cons a t ih =>
    intro s ev h
    exact ih _ ev (subdirStep_grammar_mem rel dirAbs s a ev h)

theorem foldl_subdir_fires (rel dirAbs : String) :
    ∀ (l : List SubdirInfo) (s : LoadState) (x : SubdirInfo), x ∈ l →
      GrammarEv.parserAdded rel x.2.1 ∈
        (l.foldl (subdirStep rel dirAbs) s).grammar := by
  intro l
  induction l with
  | nil => intro s x hx; cases hx
  | cons a t ih =>
    intro s x hx
    rcases List.mem_cons.mp hx with h | h
    · subst h
      refine foldl_subdir_keeps rel dirAbs t (subdirStep rel dirAbs s x) _ ?_
      unfold subdirStep
      obtain ⟨tl, htl⟩ := loadDir_grammar_mono x.2.2.2 (rel ++ x.2.1 ++ "/")
        (dirAbs ++ x.2.1 ++ "/")
        { s with grammar := s.grammar ++
            [GrammarEv.parserAdded rel x.2.1,
             GrammarEv.subparsersAdded (x.2.1 ++ "_action")] }
      rw [htl]
      apply List.mem_append_left
      apply List.mem_append_right
      simp
    · exact ih _ x h

theorem loadFiles_skip_dir (rel dirAbs : String) (before after : List Entry)
    (dname : String) (mm : Option Manifest) (es : List Entry)
    (st : LoadState) :
    loadFiles rel dirAbs (before ++ Entry.dir dname mm es :: after) st =
      loadFiles rel dirAbs (before ++ after) st := by
  unfold loadFiles
  rw [List.foldl_append, List.foldl_append, List.foldl_cons]
  rfl

theorem collect_skip_dirless (before after : List Entry) (dname : String)
    (es : List Entry) :
    collectSubdirs (before ++ Entry.dir dname none es :: after) =
      collectSubdirs (before ++ after) := by
  unfold collectSubdirs
  rw [List.filterMap_append, List.filterMap_append, List.filterMap_cons]
  simp [subdirEntryInfo]

/-! ### Claims about `Flexistack.load_actions` -/

/-- Claim C6, confirmed: action registration is first-wins — a file whose
computed action path is already registered leaves the whole load state
unchanged (no registry overwrite, no duplicate grammar registration), and
the action registry's path names stay pairwise distinct across any
directory walk that started from a duplicate-free registry. -/
theorem C6_theorem :
    (∀ (rel dirAbs : String) (st : LoadState) (name : String)
       (tag : Option ActionTag) (r : FlexiModule),
      lookupA st.registry (rel ++ pyReplace name ".py" "") = some r →
      processFile rel dirAbs st name tag = st) ∧
    (∀ (entries : List Entry) (rel dirAbs : String) (st : LoadState),
      (st.registry.map Prod.fst).Nodup →
      ((loadDir rel dirAbs entries st).registry.map Prod.fst).Nodup) := by
  constructor
  · exact processFile_hit
  · exact fun entries rel dirAbs st h => loadDir_nodup entries rel dirAbs st h

/-- Witness for C6: re-processing `version.py` when `version` is already
registered is a no-op, and loading a listing that contains the same file
twice keeps the registry keys distinct. -/
theorem C6_witness :
    processFile "" "root/" stWithVersion "version.py" (some tagOptV) =
      stWithVersion ∧
    ((loadDir "" "root/" [Entry.file "version.py" (some tagOptV),
        Entry.file "version.py" (some tagOptV)] emptyState).registry.map
      Prod.fst).Nodup :=
  ⟨C6_theorem.1 "" "root/" stWithVersion "version.py" (some tagOptV)
      { p := "root/version.py", d := PyVal.pstr "Get version", c := "Version" }
      rfl,
    C6_theorem.2 [Entry.file "version.py" (some tagOptV),
      Entry.file "version.py" (some tagOptV)] "" "root/" emptyState
      List.nodup_nil⟩

/-- Claim C8, confirmed: a subdirectory without a `.flexistack` manifest is
invisible to action discovery — removing it from the listing yields the very
same load state (so no subcommand parser and no registry entry can stem from
it) — while a manifest-carrying subdirectory always gets its subcommand
parser registered. -/
theorem C8_theorem :
    (∀ (rel dirAbs : String) (st : LoadState) (before after : List Entry)
       (dname : String) (es : List Entry),
      loadDir rel dirAbs (before ++ Entry.dir dname none es :: after) st =
        loadDir rel dirAbs (before ++ after) st) ∧
    (∀ (rel dirAbs : String) (st : LoadState) (entries : List Entry)
       (dname : String) (m : Manifest) (es : List Entry),
      Entry.dir dname (some m) es ∈ entries → dname ≠ "__pycache__" →
      dname ≠ ".flexistack" →
      GrammarEv.parserAdded rel dname ∈
        (loadDir rel dirAbs entries st).grammar) := by
  constructor
  · intro rel dirAbs st before after dname es
    rw [loadDir_eq, loadDir_eq, loadFiles_skip_dir,
      collect_skip_dirless]
  · intro rel dirAbs st entries dname m es hmem h1 h2
    rw [loadDir_eq]
    have hc : (m.zIndex, dname, m.description, es) ∈ collectSubdirs entries :=
      List.mem_filterMap.mpr
        ⟨Entry.dir dname (some m) es, hmem, by simp [subdirEntryInfo, h1, h2]⟩
    exact foldl_subdir_fires rel dirAbs _ _ (m.zIndex, dname, m.description, es)
      (mem_sortZ_intro _ _ hc)

/-- Witness for C8: in a listing with manifest'd `generate` and
manifest-less `hidden`, discovery registers the `generate` subcommand
parser, and dropping `hidden` changes nothing. -/
theorem C8_witness :
    GrammarEv.parserAdded "" "generate" ∈
      (loadDir "" "root/" c8Entries emptyState).grammar ∧
    loadDir "" "root/" c8Entries emptyState =
      loadDir "" "root/"
        [Entry.dir "generate" (some { zIndex := 1, description := "Generate" })
          [Entry.file "random-string.py" (some tagLeaf)]] emptyState :=
  ⟨C8_theorem.2 "" "root/" emptyState c8Entries "generate"
      { zIndex := 1, description := "Generate" }
      [Entry.file "random-string.py" (some tagLeaf)]
      (List.mem_cons_self _ _) (by decide) (by decide),
    C8_theorem.1 "" "root/" emptyState
      [Entry.dir "generate" (some { zIndex := 1, description := "Generate" })
        [Entry.file "random-string.py" (some tagLeaf)]] [] "hidden"
      [Entry.file "secret.py" (some tagLeaf)]⟩

/-! ### Plugin-discovery lemmas and claims -/

theorem packInsert_lookup_self (v : PyObj) (m : PluginModule) :
    ∀ pack : PluginPack, lookupA (packInsert pack v m) v = some m := by
  intro pack
  induction pack with
  | nil => simp [packInsert, lookupA]
  | cons p rest ih =>
    cases p with
    | mk k old =>
      simp only [packInsert]
      by_cases hk : k = v
      · rw [if_pos hk]; simp [lookupA]
      · rw [if_neg hk]
        simp only [lookupA]
        rw [if_neg hk]
        exact ih

theorem regSet_lookup (nm v : PyObj) (m : PluginModule) :
    ∀ (reg : PluginReg) (pack : PluginPack), lookupA reg nm = some pack →
      lookupA (regSet reg nm v m) nm = some (packInsert pack v m) := by
  intro reg
  induction reg with
  | nil => intro pack h; simp [lookupA] at h
  | cons p rest ih =>
    intro pack h
    cases p with
    | mk k pk =>
      simp only [lookupA] at h
      simp only [regSet, List.map_cons]
      by_cases hk : k = nm
      · rw [if_pos hk] at h
        injection h with h'
        subst h'
        rw [if_pos hk]
        simp only [lookupA]
        rw [if_pos hk]
      · rw [if_neg hk] at h
        rw [if_neg hk]
        simp only [lookupA]
        rw [if_neg hk]
        exact ih pack h

/-- Counterexample to claim C7 as stated: a file whose `flexi_plugin`
decorator carries a wrongly typed version literal (`@flexi_plugin("p", 1,
"d")`, version an `int`) is not skipped — the source checks only the
argument count, so the module is registered under the name `"p"` and the
non-string version key `1`. -/
theorem C7_counterexample :
    loadPluginFile [] wrongTypedPluginFile "plugins/dummy_generator.py" =
      [(PyObj.lit (PyVal.pstr "p"),
        [(PyObj.lit (PyVal.pint 1),
          { p := "plugins/dummy_generator.py", d := PyObj.lit (PyVal.pstr "d"),
            c := "DummyGenerator" })])] ∧
    ([(PyObj.lit (PyVal.pstr "p"),
        [(PyObj.lit (PyVal.pint 1),
          { p := "plugins/dummy_generator.py", d := PyObj.lit (PyVal.pstr "d"),
            c := "DummyGenerator" })])] : PluginReg) ≠ [] :=
  ⟨rfl, by decide⟩

/-- Claim C7 as amended: plugin discovery registers a module reference under
`(name, version)` — creating the per-name pack if absent — for the first
class whose `flexi_plugin` decorator has exactly three arguments on each of
which the `.value` access succeeds: compile-time literals of any type, but
also non-literal `ast.Attribute`/`ast.Subscript`/`ast.Starred`/
`ast.NamedExpr` arguments, whose `.value` is a child AST-node object that is
then registered as the key, unchecked.  Only an argument without a `.value`
field (`ast.Name`, `ast.Call`, ...) raises during extraction, and such a
file — like one with no matching decorator — registers nothing (the
per-file `try/except` swallows the raise).  No validation of the metadata
fields beyond the argument count is performed. -/
theorem C7_theorem : ∀ (reg : PluginReg) (f : PyFile) (path : String),
    (scanClasses f.classes = .nothing ∨ scanClasses f.classes = .raised →
      loadPluginFile reg f path = reg) ∧
    (∀ pname pvers pdesc cname,
      pluginFileOk f.filename = true →
      scanClasses f.classes = .found pname pvers pdesc cname →
      ∃ pack, lookupA (loadPluginFile reg f path) pname = some pack ∧
        lookupA pack pvers = some { p := path, d := pdesc, c := cname }) := by
  intro reg f path
  constructor
  · intro h
    unfold loadPluginFile
    by_cases hok : pluginFileOk f.filename = true
    · rw [if_pos hok]
      rcases h with h | h
      · rw [h]
      · rw [h]
    · rw [if_neg hok]
  · intro pname pvers pdesc cname hok hscan
    unfold loadPluginFile
    rw [if_pos hok, hscan]
    dsimp only []
    by_cases hn : lookupA reg pname = none
    · rw [if_pos hn]
      refine ⟨packInsert [] pvers { p := path, d := pdesc, c := cname },
        ?_, ?_⟩
      · exact regSet_lookup pname pvers _ _ []
          (lookupA_append_missing reg pname [] hn)
      · exact packInsert_lookup_self pvers _ []
    · rw [if_neg hn]
      rcases Option.ne_none_iff_exists'.mp hn with ⟨pack0, hp⟩
      exact ⟨packInsert pack0 pvers { p := path, d := pdesc, c := cname },
        regSet_lookup pname pvers _ _ pack0 hp,
        packInsert_lookup_self pvers _ pack0⟩

/-- Witness for C7: a well-formed `flexi_plugin("dummy-generator", "0.1.0",
"A dummy generator")` file is registered under that name and version; an
`@flexi_plugin(cfg.name, "1.0", "d")` file — first argument an
`ast.Attribute` node — is registered under the AST-node object its `.value`
yields; and an `@flexi_plugin(name, "1.0", "d")` file — first argument a
bare `ast.Name` without `.value` — registers nothing. -/
theorem C7_witness :
    (∃ pack, lookupA (loadPluginFile [] validPluginFile
        "plugins/dummy-generator/v0.1.0/dummy_generator.py")
        (PyObj.lit (PyVal.pstr "dummy-generator")) = some pack ∧
      lookupA pack (PyObj.lit (PyVal.pstr "0.1.0")) =
        some { p := "plugins/dummy-generator/v0.1.0/dummy_generator.py",
               d := PyObj.lit (PyVal.pstr "A dummy generator"),
               c := "DummyGenerator" }) ∧
    (∃ pack, lookupA (loadPluginFile [] attrArgPluginFile
        "plugins/configured_plugin.py") (PyObj.node 0) = some pack ∧
      lookupA pack (PyObj.lit (PyVal.pstr "1.0")) =
        some { p := "plugins/configured_plugin.py",
               d := PyObj.lit (PyVal.pstr "d"), c := "Configured" }) ∧
    loadPluginFile [] nameArgPluginFile "plugins/named_plugin.py" = [] :=
  ⟨(C7_theorem [] validPluginFile
      "plugins/dummy-generator/v0.1.0/dummy_generator.py").2
      (PyObj.lit (PyVal.pstr "dummy-generator"))
      (PyObj.lit (PyVal.pstr "0.1.0"))
      (PyObj.lit (PyVal.pstr "A dummy generator")) "DummyGenerator" rfl rfl,
    (C7_theorem [] attrArgPluginFile "plugins/configured_plugin.py").2
      (PyObj.node 0) (PyObj.lit (PyVal.pstr "1.0"))
      (PyObj.lit (PyVal.pstr "d")) "Configured" rfl rfl,
    (C7_theorem [] nameArgPluginFile "plugins/named_plugin.py").1
      (Or.inr rfl)⟩
